import Mathlib

/-!
Verification of the docnsrt file-mutation pipeline.

This file shallowly embeds the data model and the core operations of the
repository (the commit sweep of `DocumentationPipeline.commit`, the
formatters' placement computation, the approval gate, and the parser's
qualified-name / ordering behavior) as executable Lean definitions, and
proves or refutes the frozen specification claims about them.

Modelling conventions:
* A source file's content is a `String` (its decoded text); its line buffer
  is a `List String` as produced by Python's `readlines`.
* Python `int` is `Int`; `st_mtime`/`st_size` are compared only for
  equality and are modelled as `Int`.
* Python list slice operations (`del l[a:b]`, `l[i:i] = xs`) are modelled
  with Python's exact index-normalization semantics (negative indices wrap
  from the end, then everything clamps into `[0, len]`).
* `list.sort(key=...)` is Python's stable ascending sort; it is modelled by
  the stable `List.insertionSort` on the same key order.
* File I/O and the advisory lock are outside the model: `commit` takes the
  file's current stat and content as arguments and returns the resulting
  content in `Except`, where `.error` corresponds to the Python exception
  (which occurs before the single write, leaving the file unchanged).
* `open(..., "r+", encoding="utf-8")` uses universal-newline text mode:
  on read, `"\r\n"` and `"\r"` are translated to `"\n"`; on write, `"\n"`
  is translated to `os.linesep`, which is `"\n"` on the POSIX platforms
  modelled here.
-/

/-- Enumeration for docstring locations (`core/models.py`). -/
inductive DocstringLocation where
  | inline
  | above
  | below
deriving DecidableEq, Repr

/-- Model for function parameters (`core/models.py`). -/
structure ParameterModel where
  name : String
  type : String
  desc : String
deriving DecidableEq, Repr

/-- Model for function exceptions (`core/models.py`). -/
structure ExceptionModel where
  type : String
  desc : String
deriving DecidableEq, Repr

/-- Model for function docstrings (`core/models.py`). -/
structure DocstringModel where
  lines : List String
  start_line : Int
deriving DecidableEq, Repr

/-- Model for function context information (`core/models.py`). -/
structure FunctionContextModel where
  qualified_name : String
  signature : String
  parameters : List ParameterModel
  docstring : Option DocstringModel
  start_line : Int
deriving DecidableEq, Repr

/-- Model for docstring template values (`core/models.py`). -/
structure DocstringTemplateModel where
  summary : String
  return_description : Option String := none
  parameters : List ParameterModel := []
  return_type : Option String := none
  exceptions : List ExceptionModel := []
  remarks : Option String := none
deriving DecidableEq, Repr

/-- Model for one pending file mutation (`core/models.py`,
`DocstringPresentationModel`). -/
structure DocstringPresentationModel where
  qualified_name : String
  signature : String
  new_docstring : DocstringModel
  offset_spaces : Int := 0
  file_path : String := ""
  existing_docstring : Option DocstringModel := none
  docstring_location : DocstringLocation := DocstringLocation.inline
deriving DecidableEq, Repr

/-- Model representing a formatted docstring (`core/models.py`). -/
structure FormattedDocstringModel where
  start_line : Int
  formatted_documentation : List String
  offset_spaces : Int := 0
  docstring_location : DocstringLocation := DocstringLocation.inline
deriving DecidableEq, Repr

/-- The `(st_mtime, st_size)` pair returned by `os.stat`; both components
are only ever compared for equality by the pipeline, so they are modelled
as integers. -/
structure FileStat where
  st_mtime : Int
  st_size : Int
deriving DecidableEq, Repr

/-! ### Python list-slice primitives

`del lines[a:b]` and `lines[i:i] = xs` never raise in Python: a slice
index is first wrapped from the end when negative and then clamped into
`[0, len]`. -/

/-- Normalize a Python slice index against a list of length `n`:
negative indices count from the end, then the result is clamped into
`[0, n]`. -/
def pyNormIdx (i : Int) (n : Nat) : Nat :=
  if i < 0 then ((n : Int) + i).toNat else min i.toNat n

/-- Python `del l[a:b]`. -/
def pyDelSlice (l : List α) (a b : Int) : List α :=
  let a2 := pyNormIdx a l.length
  let b2 := pyNormIdx b l.length
  l.take a2 ++ l.drop (max a2 b2)

/-- Python `l[i:i] = xs` (insert-before splice, zero deletion). -/
def pyInsertSlice (l : List α) (i : Int) (xs : List α) : List α :=
  let i2 := pyNormIdx i l.length
  l.take i2 ++ xs ++ l.drop i2

/-- Python `" " * n` (empty for non-positive `n`). -/
def pySpaces (n : Int) : String :=
  String.mk (List.replicate n.toNat ' ')

/-! ### Universal-newline text mode (`open(file_path, "r+", encoding="utf-8")`) -/

/-- Universal-newline translation performed by Python text-mode reads with
`newline=None`: `"\r\n"` and `"\r"` both become `"\n"`. -/
def pyTranslateNewlines : List Char → List Char
  | [] => []
  | '\r' :: '\n' :: rest => '\n' :: pyTranslateNewlines rest
  | '\r' :: rest => '\n' :: pyTranslateNewlines rest
  | c :: rest => c :: pyTranslateNewlines rest

/-- Split an (already newline-translated) character stream into lines, each
keeping its trailing `'\n'`; a final unterminated line is kept as-is.
`acc` holds the current line's characters in reverse. -/
def pySplitLinesKeepEnds (acc : List Char) : List Char → List (List Char)
  | [] => if acc = [] then [] else [acc.reverse]
  | c :: rest =>
    if c = '\n' then (acc.reverse ++ ['\n']) :: pySplitLinesKeepEnds [] rest
    else pySplitLinesKeepEnds (c :: acc) rest

/-- Python `f.readlines()` on a file opened in universal-newline text mode. -/
def pyReadlines (s : String) : List String :=
  (pySplitLinesKeepEnds [] (pyTranslateNewlines s.data)).map String.mk

/-- Python `f.writelines(lines)` after `seek(0)`/`truncate()`: on POSIX,
text-mode writing leaves `"\n"` unchanged, so the new file content is the
concatenation of the lines. -/
def pyWritelines (lines : List String) : String :=
  String.join lines

/-! ### The commit sweep (`DocumentationPipeline.commit`, pipeline.py 257-290) -/

/-- Sort key used by `docs.sort(key=lambda x: x.new_docstring.start_line)`. -/
def docSortKey (d : DocstringPresentationModel) : Int :=
  d.new_docstring.start_line

/-- The ascending key order used by the commit sort. -/
def docSortLe (a b : DocstringPresentationModel) : Prop :=
  docSortKey a ≤ docSortKey b

instance : DecidableRel docSortLe := fun a b =>
  inferInstanceAs (Decidable (docSortKey a ≤ docSortKey b))

instance : IsTotal DocstringPresentationModel docSortLe :=
  ⟨fun a b => le_total (docSortKey a) (docSortKey b)⟩

instance : IsTrans DocstringPresentationModel docSortLe :=
  ⟨fun _ _ _ hab hbc => le_trans hab hbc⟩

/-- The indented insertion block of one edit: each line of
`new_docstring.lines` prefixed with `offset_spaces` literal spaces
(pipeline.py 274-277). -/
def indentedDocumentation (doc : DocstringPresentationModel) : List String :=
  doc.new_docstring.lines.map (fun doc_line => pySpaces doc.offset_spaces ++ doc_line)

/-- One iteration of the commit sweep's `for doc in docs` loop
(pipeline.py 261-290), acting on the line buffer and the running offset. -/
def applyEdit (st : List String × Int) (doc : DocstringPresentationModel) :
    List String × Int :=
  let lines := st.1
  let offset := st.2
  let adjusted_line := doc.new_docstring.start_line + offset
  let removed_lines : Nat :=
    match doc.existing_docstring with
    | some ex => ex.lines.length
    | none => 0
  let lines :=
    match doc.existing_docstring with
    | some ex =>
      pyDelSlice lines (ex.start_line + offset)
        (ex.start_line + offset + (ex.lines.length : Int))
    | none => lines
  let adjusted_line :=
    if doc.docstring_location = DocstringLocation.above then
      max 0 (adjusted_line - (removed_lines : Int))
    else adjusted_line
  (pyInsertSlice lines adjusted_line (indentedDocumentation doc),
    offset + (doc.new_docstring.lines.length : Int) - (removed_lines : Int))

/-- The full in-memory commit sweep: stable ascending sort by
`new_docstring.start_line`, then the single forward pass with the running
offset initialized to 0. -/
def commitSweep (docs : List DocstringPresentationModel) (lines : List String) :
    List String :=
  ((List.insertionSort docSortLe docs).foldl applyEdit (lines, 0)).1

/-- `DocumentationPipeline.commit` (pipeline.py 223-297): re-stat and
compare against the identity guard, abort before any mutation on mismatch;
otherwise read the lines, run the sweep, and rewrite the file. `.error`
models the raised `RuntimeError`. -/
def commit (file_path : String) (orig_mtime orig_size : Int) (st : FileStat)
    (content : String) (docs : List DocstringPresentationModel) :
    Except String String :=
  if st.st_mtime ≠ orig_mtime ∨ st.st_size ≠ orig_size then
    Except.error ("File " ++ file_path ++ " changed externally")
  else
    Except.ok (pyWritelines (commitSweep docs (pyReadlines content)))

/-- The bytes of the file after a `commit` attempt: the rewritten content on
success; on an exception the single write at the end of `commit` never ran,
so the file keeps its previous content. -/
def fileAfterCommit (file_path : String) (orig_mtime orig_size : Int)
    (st : FileStat) (content : String)
    (docs : List DocstringPresentationModel) : String :=
  match commit file_path orig_mtime orig_size st content docs with
  | Except.ok c => c
  | Except.error _ => content

/-! ### Round-trip facts about the text-mode read/write -/

lemma flatten_pySplitLinesKeepEnds (cs : List Char) :
    ∀ acc : List Char, (pySplitLinesKeepEnds acc cs).flatten = acc.reverse ++ cs := by
  induction cs with
  | nil =>
    intro acc
    by_cases h : acc = [] <;> simp [pySplitLinesKeepEnds, h]
  | cons c rest ih =>
    intro acc
    by_cases h : c = '\n'
    · subst h
      simp [pySplitLinesKeepEnds, ih]
    · simp [pySplitLinesKeepEnds, h, ih (c :: acc)]

lemma pyTranslateNewlines_of_no_cr :
    ∀ cs : List Char, '\r' ∉ cs → pyTranslateNewlines cs = cs := by
  intro cs
  induction cs using pyTranslateNewlines.induct with
  | case1 => intro; rfl
  | case2 rest ih => intro h; simp at h
  | case3 rest h2 ih => intro h; simp at h
  | case4 c rest h1 h2 ih =>
    intro h
    simp only [List.mem_cons, not_or] at h
    rw [pyTranslateNewlines.eq_4 c rest h1 h2, ih h.2]

lemma join_pyReadlines (content : String) (h : '\r' ∉ content.data) :
    String.join (pyReadlines content) = content := by
  apply String.ext
  rw [String.join_eq]
  show ((pyReadlines content).map String.data).flatten = content.data
  rw [pyReadlines, List.map_map]
  have hmk : String.data ∘ String.mk = id := rfl
  rw [hmk, List.map_id, flatten_pySplitLinesKeepEnds, pyTranslateNewlines_of_no_cr _ h]
  rfl

/-- C3: if at commit time the file's `(mtime, size)` differs in either
component from the identity guard captured at parse time, `commit` fails
with the file-scoped "changed externally" error before any mutation, and
the file's bytes remain exactly its pre-commit (externally modified)
content: the aborted commit performs zero writes. -/
theorem commit_external_modification_aborts (file_path : String)
    (orig_mtime orig_size : Int) (st : FileStat) (content : String)
    (docs : List DocstringPresentationModel)
    (h : st.st_mtime ≠ orig_mtime ∨ st.st_size ≠ orig_size) :
    commit file_path orig_mtime orig_size st content docs =
      Except.error ("File " ++ file_path ++ " changed externally") ∧
    fileAfterCommit file_path orig_mtime orig_size st content docs = content := by
  have h1 : commit file_path orig_mtime orig_size st content docs =
      Except.error ("File " ++ file_path ++ " changed externally") := by
    rw [commit, if_pos h]
  exact ⟨h1, by rw [fileAfterCommit, h1]⟩

theorem commit_external_modification_aborts_witness :
    (((⟨7, 99⟩ : FileStat).st_mtime ≠ 7 ∨ (⟨7, 99⟩ : FileStat).st_size ≠ 42) ∧
      (commit "f.py" 7 42 ⟨7, 99⟩ "line\n" [] =
        Except.error ("File " ++ "f.py" ++ " changed externally") ∧
      fileAfterCommit "f.py" 7 42 ⟨7, 99⟩ "line\n" [] = "line\n")) :=
  ⟨by decide,
    commit_external_modification_aborts "f.py" 7 42 ⟨7, 99⟩ "line\n" [] (by decide)⟩

/-- C4 counterexample: with a matching identity guard and an **empty** edit
list, `commit` does *not* always leave the file's bytes unchanged. The file
is opened in universal-newline text mode, so a CRLF line terminator is
rewritten to LF by the read-then-rewrite even though no edit is applied:
on content `"a\r\nb\n"` the no-op commit returns `"a\nb\n"`. -/
theorem commit_noop_cex :
    commit "f.py" 7 6 ⟨7, 6⟩ "a\r\nb\n" [] = Except.ok "a\nb\n" ∧
    ("a\nb\n" : String) ≠ "a\r\nb\n" := by
  constructor
  · rfl
  · decide

/-- C4 (amended): committing an empty edit list with a matching identity
guard leaves the file's bytes unchanged, provided the content contains no
carriage-return characters (universal-newline text mode rewrites `\r\n`
and `\r` to `\n` even when no edits are applied). -/
theorem commit_noop_identity (file_path : String) (orig_mtime orig_size : Int)
    (st : FileStat) (content : String)
    (hmt : st.st_mtime = orig_mtime) (hsz : st.st_size = orig_size)
    (hcr : '\r' ∉ content.data) :
    commit file_path orig_mtime orig_size st content [] = Except.ok content := by
  rw [commit, if_neg (by simp [hmt, hsz])]
  have hsweep : commitSweep [] (pyReadlines content) = pyReadlines content := rfl
  rw [hsweep, pyWritelines, join_pyReadlines content hcr]

theorem commit_noop_identity_witness :
    ((⟨3, 8⟩ : FileStat).st_mtime = 3 ∧ (⟨3, 8⟩ : FileStat).st_size = 8 ∧
      '\r' ∉ ("ab\ncd\n" : String).data) ∧
    commit "f.py" 3 8 ⟨3, 8⟩ "ab\ncd\n" [] = Except.ok "ab\ncd\n" :=
  ⟨⟨by decide, by decide, by decide⟩,
    commit_noop_identity "f.py" 3 8 ⟨3, 8⟩ "ab\ncd\n" rfl rfl (by decide)⟩

/-- C10: the commit sweep itself is total in the edit coordinates — the
existing-docstring deletion and the insertion splice use Python's
normalizing/clamping slice semantics, so for every edit list and every
buffer no coordinate produces an out-of-bounds failure; `commit` returns an
error if and only if the identity guard check fails. -/
theorem commit_fails_only_on_guard (file_path : String)
    (orig_mtime orig_size : Int) (st : FileStat) (content : String)
    (docs : List DocstringPresentationModel) :
    (∃ e, commit file_path orig_mtime orig_size st content docs =
        Except.error e) ↔
      (st.st_mtime ≠ orig_mtime ∨ st.st_size ≠ orig_size) := by
  constructor
  · intro he
    by_contra hg
    rw [commit, if_neg hg] at he
    exact absurd he.choose_spec (by simp)
  · intro hg
    exact ⟨_, by rw [commit, if_pos hg]⟩

/-! ### Indentation lookup (`utils/file_utils.py`, `get_line_text_offset_spaces`)

The formatters read the file by path; in the model a file is passed as its
list of lines (as yielded by iterating the open file). -/

/-- Python `line_text.lstrip(" ")`: strip leading space characters only
(tabs and other whitespace are not stripped). -/
def pyLstripSpaces (s : String) : String :=
  String.mk (s.data.dropWhile (fun c => c = ' '))

/-- The `for idx, line_text in enumerate(f, start=0)` loop of
`get_line_text_offset_spaces`, returning `-1` when the requested line
number is never reached. -/
def getLineOffsetAux (line : Int) (idx : Int) : List String → Int
  | [] => -1
  | line_text :: rest =>
    if idx = line then (line_text.length : Int) - ((pyLstripSpaces line_text).length : Int)
    else getLineOffsetAux line (idx + 1) rest

/-- `get_line_text_offset_spaces(file_path, line)`: number of spaces before
text begins on the given line, or `-1` if the line is not found. -/
def get_line_text_offset_spaces (file_lines : List String) (line : Int) : Int :=
  getLineOffsetAux line 0 file_lines

/-- Spec-side count of the leading space characters of a line (tabs are not
counted as indentation). -/
def leadingSpacesCount (s : String) : Nat :=
  (s.data.takeWhile (fun c => c = ' ')).length

/-! ### Formatters (`formatter/python_formatters.py`, `formatter/csharp_formatters.py`) -/

/-- `INDENT_SPACES` (python_formatters.py). -/
def INDENT_SPACES : Int := 4

/-- `COMMENT_START` (csharp_formatters.py). -/
def COMMENT_START : String := "/// "

/-- Python string truthiness for an optional string field: `None` and the
empty string are falsy. -/
def pyTruthyStr : Option String → Bool
  | none => false
  | some s => s ≠ ""

/-- The characters stripped by Python `str.strip()` with no argument. -/
def pyIsStrippedWhitespace (c : Char) : Bool :=
  c = ' ' || c = '\t' || c = '\n' || c = '\r' || c = '\x0b' || c = '\x0c'

/-- Python `s.strip()`. -/
def pyStrip (s : String) : String :=
  String.mk (((s.data.dropWhile pyIsStrippedWhitespace).reverse.dropWhile
    pyIsStrippedWhitespace).reverse)

/-- `_get_docstring_model` (python_formatters.py 16-37): read the signature
line's indentation, fail (`ValueError`) if the start line cannot be read,
otherwise place the docstring right below the signature at the signature
indentation plus one indent unit. -/
def _get_docstring_model (lines : List String) (func_context : FunctionContextModel)
    (file_lines : List String) : Except String FormattedDocstringModel :=
  let function_signature_offset :=
    get_line_text_offset_spaces file_lines func_context.start_line
  if function_signature_offset ≥ 0 then
    Except.ok
      { start_line := func_context.start_line + 1
        formatted_documentation := lines
        offset_spaces := function_signature_offset + INDENT_SPACES
        docstring_location := DocstringLocation.below }
  else
    Except.error ("Unable to read start line " ++ toString func_context.start_line)

/-- The comment lines built by `PythonPepFormatter.get_formatted_docstring`
(python_formatters.py 52-66). -/
def pepFormatLines (template_values : DocstringTemplateModel) : List String :=
  let lines := ["\"\"\"", template_values.summary, ""]
  let lines := lines ++
    (if template_values.parameters ≠ [] then
      "Args:" :: template_values.parameters.map (fun param =>
        "    " ++ param.name ++ " (" ++ param.type ++ "): " ++ param.desc)
    else [])
  let lines := lines ++
    (if pyTruthyStr template_values.return_description then
      ["", "Returns:", "    " ++ template_values.return_description.getD ""]
    else [])
  let lines := lines ++ ["\"\"\""]
  lines.map (fun line => line ++ "\n")

/-- `PythonPepFormatter.get_formatted_docstring` (python_formatters.py 40-68). -/
def PythonPepFormatter.get_formatted_docstring (file_lines : List String)
    (func_context : FunctionContextModel)
    (template_values : DocstringTemplateModel) :
    Except String FormattedDocstringModel :=
  _get_docstring_model (pepFormatLines template_values) func_context file_lines

/-- The comment lines built by `PythonNumpyFormatter.get_formatted_docstring`
(python_formatters.py 83-105). -/
def numpyFormatLines (template_values : DocstringTemplateModel) : List String :=
  let lines := ["\"\"\"", template_values.summary, ""]
  let lines := lines ++ ["Parameters", "----------"]
  let lines := lines ++
    (if template_values.parameters ≠ [] then
      (template_values.parameters.map (fun param =>
        [param.name ++ " : (" ++ param.type ++ ")", "  " ++ param.desc])).flatten
    else [])
  let lines := lines ++ [""]
  let lines := lines ++
    (if pyTruthyStr template_values.return_description then
      ["Returns", "-------", template_values.return_description.getD "", ""]
    else [])
  let lines := lines ++ ["Examples", "--------", "", "\"\"\""]
  lines.map (fun line => line ++ "\n")

/-- `PythonNumpyFormatter.get_formatted_docstring` (python_formatters.py 71-107). -/
def PythonNumpyFormatter.get_formatted_docstring (file_lines : List String)
    (func_context : FunctionContextModel)
    (template_values : DocstringTemplateModel) :
    Except String FormattedDocstringModel :=
  _get_docstring_model (numpyFormatLines template_values) func_context file_lines

/-- The comment lines built by `CSharpXmlFormatter.get_formatted_docstring`
(csharp_formatters.py 26-45). -/
def csharpFormatLines (template_values : DocstringTemplateModel) : List String :=
  let lines := [COMMENT_START ++ "<summary>",
    COMMENT_START ++ pyStrip template_values.summary,
    COMMENT_START ++ "</summary>"]
  let lines := lines ++ template_values.parameters.map (fun param =>
    COMMENT_START ++ "<param name=\"" ++ param.name ++ "\">" ++ param.desc ++ "</param>")
  let lines := lines ++
    (if pyTruthyStr template_values.return_description then
      [COMMENT_START ++ "<returns>" ++ template_values.return_description.getD "" ++
        "</returns>"]
    else [])
  lines.map (fun line => line ++ "\n")

/-- `CSharpXmlFormatter.get_formatted_docstring` (csharp_formatters.py 16-61):
XML comments go right above the signature at exactly the signature
indentation; fails (`ValueError`) when the start line cannot be read. -/
def CSharpXmlFormatter.get_formatted_docstring (file_lines : List String)
    (func_context : FunctionContextModel)
    (template_values : DocstringTemplateModel) :
    Except String FormattedDocstringModel :=
  let function_signature_offset :=
    get_line_text_offset_spaces file_lines func_context.start_line
  let lines := csharpFormatLines template_values
  if function_signature_offset ≥ 0 then
    Except.ok
      { start_line := func_context.start_line
        formatted_documentation := lines
        offset_spaces := function_signature_offset
        docstring_location := DocstringLocation.above }
  else
    Except.error ("Unable to read start line " ++ toString func_context.start_line)

/-! ### Lemmas about the indentation lookup -/

lemma getLineOffsetAux_not_found (l : List String) :
    ∀ idx line : Int, (line < idx ∨ idx + l.length ≤ line) →
      getLineOffsetAux line idx l = -1 := by
  induction l with
  | nil => intro idx line _; rfl
  | cons a rest ih =>
    intro idx line h
    rw [getLineOffsetAux, if_neg (by simp at h; omega)]
    apply ih
    simp at h
    omega

lemma getLineOffsetAux_found (l : List String) :
    ∀ (idx : Int) (k : Nat) (hk : k < l.length),
      getLineOffsetAux (idx + k) idx l =
        ((l.get ⟨k, hk⟩).length : Int) - ((pyLstripSpaces (l.get ⟨k, hk⟩)).length : Int) := by
  induction l with
  | nil => intro idx k hk; exact absurd hk (by simp)
  | cons a rest ih =>
    intro idx k hk
    match k with
    | 0 => rw [getLineOffsetAux, if_pos (by omega)]; rfl
    | Nat.succ j =>
      rw [getLineOffsetAux, if_neg (by omega)]
      have hrw : idx + ((j + 1 : Nat) : Int) = (idx + 1) + (j : Nat) := by push_cast; ring
      rw [hrw, ih (idx + 1) j (by simpa using hk)]
      rfl

lemma length_sub_lstrip (s : String) :
    (s.length : Int) - ((pyLstripSpaces s).length : Int) = (leadingSpacesCount s : Int) := by
  have hsplit : (s.data.takeWhile (fun c => c = ' ')).length +
      (s.data.dropWhile (fun c => c = ' ')).length = s.data.length := by
    conv_rhs => rw [← List.takeWhile_append_dropWhile (fun c => c = ' ') s.data]
    rw [List.length_append]
  have hlen : s.length = s.data.length := rfl
  have hlstrip : (pyLstripSpaces s).length = (s.data.dropWhile (fun c => c = ' ')).length := rfl
  rw [leadingSpacesCount, hlen, hlstrip]
  omega

lemma get_line_text_offset_spaces_of_valid (file_lines : List String) (line : Int)
    (h0 : 0 ≤ line) (h1 : line.toNat < file_lines.length) :
    get_line_text_offset_spaces file_lines line =
      (leadingSpacesCount (file_lines.get ⟨line.toNat, h1⟩) : Int) := by
  have hline : line = (0 : Int) + (line.toNat : Int) := by omega
  rw [get_line_text_offset_spaces]
  conv_lhs => rw [hline]
  rw [getLineOffsetAux_found file_lines 0 line.toNat h1, length_sub_lstrip]

lemma get_line_text_offset_spaces_of_invalid (file_lines : List String) (line : Int)
    (h : ¬(0 ≤ line ∧ line.toNat < file_lines.length)) :
    get_line_text_offset_spaces file_lines line = -1 := by
  apply getLineOffsetAux_not_found
  omega

lemma get_line_text_offset_spaces_nonneg_of_valid (file_lines : List String) (line : Int)
    (h0 : 0 ≤ line) (h1 : line.toNat < file_lines.length) :
    0 ≤ get_line_text_offset_spaces file_lines line := by
  rw [get_line_text_offset_spaces_of_valid file_lines line h0 h1]
  positivity

/-- C6: the placement rule is fixed per style. When the signature line is
readable, both Python body-literal formatters return
`start_line = func start_line + 1`, location `BELOW`, and
`offset_spaces = leading-space count of the signature line + 4`, while the
C# XML leading-comment formatter returns `start_line` unchanged, location
`ABOVE`, and `offset_spaces =` the signature line's leading-space count
exactly. -/
theorem formatter_placement_rules (file_lines : List String)
    (func_context : FunctionContextModel) (template_values : DocstringTemplateModel)
    (h0 : 0 ≤ func_context.start_line)
    (h1 : func_context.start_line.toNat < file_lines.length) :
    (∃ m, PythonPepFormatter.get_formatted_docstring file_lines func_context
        template_values = Except.ok m ∧
      m.start_line = func_context.start_line + 1 ∧
      m.docstring_location = DocstringLocation.below ∧
      m.offset_spaces =
        (leadingSpacesCount (file_lines.get ⟨func_context.start_line.toNat, h1⟩) : Int) + 4) ∧
    (∃ m, PythonNumpyFormatter.get_formatted_docstring file_lines func_context
        template_values = Except.ok m ∧
      m.start_line = func_context.start_line + 1 ∧
      m.docstring_location = DocstringLocation.below ∧
      m.offset_spaces =
        (leadingSpacesCount (file_lines.get ⟨func_context.start_line.toNat, h1⟩) : Int) + 4) ∧
    (∃ m, CSharpXmlFormatter.get_formatted_docstring file_lines func_context
        template_values = Except.ok m ∧
      m.start_line = func_context.start_line ∧
      m.docstring_location = DocstringLocation.above ∧
      m.offset_spaces =
        (leadingSpacesCount (file_lines.get ⟨func_context.start_line.toNat, h1⟩) : Int)) := by
  have hoff := get_line_text_offset_spaces_of_valid file_lines func_context.start_line h0 h1
  have hnn := get_line_text_offset_spaces_nonneg_of_valid file_lines func_context.start_line h0 h1
  refine ⟨?_, ?_, ?_⟩
  · have heq : PythonPepFormatter.get_formatted_docstring file_lines func_context
        template_values = Except.ok
          { start_line := func_context.start_line + 1
            formatted_documentation := pepFormatLines template_values
            offset_spaces :=
              get_line_text_offset_spaces file_lines func_context.start_line + INDENT_SPACES
            docstring_location := DocstringLocation.below } := by
      rw [PythonPepFormatter.get_formatted_docstring, _get_docstring_model, if_pos hnn]
    exact ⟨_, heq, rfl, rfl, by show _ + INDENT_SPACES = _; rw [hoff]; rfl⟩
  · have heq : PythonNumpyFormatter.get_formatted_docstring file_lines func_context
        template_values = Except.ok
          { start_line := func_context.start_line + 1
            formatted_documentation := numpyFormatLines template_values
            offset_spaces :=
              get_line_text_offset_spaces file_lines func_context.start_line + INDENT_SPACES
            docstring_location := DocstringLocation.below } := by
      rw [PythonNumpyFormatter.get_formatted_docstring, _get_docstring_model, if_pos hnn]
    exact ⟨_, heq, rfl, rfl, by show _ + INDENT_SPACES = _; rw [hoff]; rfl⟩
  · have heq : CSharpXmlFormatter.get_formatted_docstring file_lines func_context
        template_values = Except.ok
          { start_line := func_context.start_line
            formatted_documentation := csharpFormatLines template_values
            offset_spaces := get_line_text_offset_spaces file_lines func_context.start_line
            docstring_location := DocstringLocation.above } := by
      rw [CSharpXmlFormatter.get_formatted_docstring, if_pos hnn]
    exact ⟨_, heq, rfl, rfl, by show get_line_text_offset_spaces _ _ = _; rw [hoff]⟩

theorem formatter_placement_rules_witness :
    ((0 : Int) ≤ 0 ∧ (0 : Int).toNat < (["def foo(x):\n", "    return x\n"] : List String).length) ∧
    (∃ m, PythonPepFormatter.get_formatted_docstring ["def foo(x):\n", "    return x\n"]
        ⟨"m.foo", "def foo(x)", [], none, 0⟩ ⟨"s", none, [], none, [], none⟩ = Except.ok m ∧
      m.start_line = 1 ∧ m.docstring_location = DocstringLocation.below ∧
      m.offset_spaces = 4) :=
  ⟨⟨by decide, by decide⟩, by
    have h := (formatter_placement_rules ["def foo(x):\n", "    return x\n"]
      ⟨"m.foo", "def foo(x)", [], none, 0⟩ ⟨"s", none, [], none, [], none⟩
      (by decide) (by decide)).1
    obtain ⟨m, hm, hs, hl, ho⟩ := h
    refine ⟨m, hm, by rw [hs]; norm_num, hl, by rw [ho]; decide⟩⟩

lemma _get_docstring_model_error_iff (lines : List String)
    (func_context : FunctionContextModel) (file_lines : List String) :
    (∃ e, _get_docstring_model lines func_context file_lines = Except.error e) ↔
      ¬(0 ≤ func_context.start_line ∧
        func_context.start_line.toNat < file_lines.length) := by
  constructor
  · rintro ⟨e, he⟩ hvalid
    have hnn := get_line_text_offset_spaces_nonneg_of_valid file_lines
      func_context.start_line hvalid.1 hvalid.2
    rw [_get_docstring_model, if_pos hnn] at he
    exact Except.noConfusion he
  · intro hinv
    have hneg := get_line_text_offset_spaces_of_invalid file_lines
      func_context.start_line hinv
    refine ⟨"Unable to read start line " ++ toString func_context.start_line, ?_⟩
    rw [_get_docstring_model, hneg, if_neg (by norm_num)]

lemma csharp_error_iff (func_context : FunctionContextModel)
    (file_lines : List String) (template_values : DocstringTemplateModel) :
    (∃ e, CSharpXmlFormatter.get_formatted_docstring file_lines func_context
        template_values = Except.error e) ↔
      ¬(0 ≤ func_context.start_line ∧
        func_context.start_line.toNat < file_lines.length) := by
  constructor
  · rintro ⟨e, he⟩ hvalid
    have hnn := get_line_text_offset_spaces_nonneg_of_valid file_lines
      func_context.start_line hvalid.1 hvalid.2
    rw [CSharpXmlFormatter.get_formatted_docstring, if_pos hnn] at he
    exact Except.noConfusion he
  · intro hinv
    have hneg := get_line_text_offset_spaces_of_invalid file_lines
      func_context.start_line hinv
    refine ⟨"Unable to read start line " ++ toString func_context.start_line, ?_⟩
    rw [CSharpXmlFormatter.get_formatted_docstring, hneg, if_neg (by norm_num)]

/-- C7: each formatter's render operation fails with the `ValueError`-class
error exactly when the function's signature line cannot be located, i.e.
when `start_line` is not a valid line index of the file (equivalently, when
the leading-space-count helper returns `-1`); when the line exists, the
helper result — and hence `offset_spaces` — is the count of leading `' '`
characters only, so tab characters are not counted as indentation. -/
theorem formatter_signature_line_errors (file_lines : List String)
    (func_context : FunctionContextModel)
    (template_values : DocstringTemplateModel) :
    ((∃ e, PythonPepFormatter.get_formatted_docstring file_lines func_context
        template_values = Except.error e) ↔
      ¬(0 ≤ func_context.start_line ∧
        func_context.start_line.toNat < file_lines.length)) ∧
    ((∃ e, PythonNumpyFormatter.get_formatted_docstring file_lines func_context
        template_values = Except.error e) ↔
      ¬(0 ≤ func_context.start_line ∧
        func_context.start_line.toNat < file_lines.length)) ∧
    ((∃ e, CSharpXmlFormatter.get_formatted_docstring file_lines func_context
        template_values = Except.error e) ↔
      ¬(0 ≤ func_context.start_line ∧
        func_context.start_line.toNat < file_lines.length)) ∧
    (get_line_text_offset_spaces file_lines func_context.start_line = -1 ↔
      ¬(0 ≤ func_context.start_line ∧
        func_context.start_line.toNat < file_lines.length)) ∧
    (∀ h1 : func_context.start_line.toNat < file_lines.length,
      0 ≤ func_context.start_line →
        get_line_text_offset_spaces file_lines func_context.start_line =
          ((file_lines.get ⟨func_context.start_line.toNat, h1⟩).data.takeWhile
            (fun c => c = ' ')).length) := by
  refine ⟨?_, ?_, csharp_error_iff func_context file_lines template_values, ?_, ?_⟩
  · exact _get_docstring_model_error_iff _ func_context file_lines
  · exact _get_docstring_model_error_iff _ func_context file_lines
  · constructor
    · intro hneg hvalid
      have := get_line_text_offset_spaces_nonneg_of_valid file_lines
        func_context.start_line hvalid.1 hvalid.2
      omega
    · exact get_line_text_offset_spaces_of_invalid file_lines func_context.start_line
  · intro h1 h0
    rw [get_line_text_offset_spaces_of_valid file_lines func_context.start_line h0 h1]
    rfl

theorem formatter_signature_line_errors_witness :
    ((∃ e, PythonPepFormatter.get_formatted_docstring ["\t x = 1\n"]
        ⟨"m.f", "def f()", [], none, 0⟩ ⟨"s", none, [], none, [], none⟩ =
        Except.error e) ↔
      ¬(0 ≤ (0 : Int) ∧ (0 : Int).toNat < (["\t x = 1\n"] : List String).length)) ∧
    ((∃ e, PythonNumpyFormatter.get_formatted_docstring ["\t x = 1\n"]
        ⟨"m.f", "def f()", [], none, 0⟩ ⟨"s", none, [], none, [], none⟩ =
        Except.error e) ↔
      ¬(0 ≤ (0 : Int) ∧ (0 : Int).toNat < (["\t x = 1\n"] : List String).length)) ∧
    ((∃ e, CSharpXmlFormatter.get_formatted_docstring ["\t x = 1\n"]
        ⟨"m.f", "def f()", [], none, 0⟩ ⟨"s", none, [], none, [], none⟩ =
        Except.error e) ↔
      ¬(0 ≤ (0 : Int) ∧ (0 : Int).toNat < (["\t x = 1\n"] : List String).length)) ∧
    (get_line_text_offset_spaces ["\t x = 1\n"] 0 = -1 ↔
      ¬(0 ≤ (0 : Int) ∧ (0 : Int).toNat < (["\t x = 1\n"] : List String).length)) ∧
    (∀ h1 : (0 : Int).toNat < (["\t x = 1\n"] : List String).length,
      0 ≤ (0 : Int) →
        get_line_text_offset_spaces ["\t x = 1\n"] 0 =
          (((["\t x = 1\n"] : List String).get ⟨(0 : Int).toNat, h1⟩).data.takeWhile
            (fun c => c = ' ')).length) :=
  formatter_signature_line_errors ["\t x = 1\n"] ⟨"m.f", "def f()", [], none, 0⟩
    ⟨"s", none, [], none, [], none⟩

/-! ### Approval gate (`DocumentationPipeline.get_approved_docstrings`,
pipeline.py 201-221, and the selection loop of `run`, pipeline.py 62-82)

`Presenter.get_user_approval` loops internally on EDIT (re-prompting the
same edit after the external editor), so only the terminal responses
QUIT / ACCEPT / SKIP reach the approval gate; the presenter is modelled as
a function from the prompt index and the presented edit to a terminal
response together with the (possibly editor-modified) edit. -/

/-- Terminal user responses returned by `Presenter.get_user_approval`
(presenter.py `UserResponse`; EDIT never escapes the presenter loop). -/
inductive UserResponse where
  | quit
  | accept
  | skip
deriving DecidableEq, Repr

/-- `UserResponseModel` (presenter.py): the presented (possibly edited)
doc and the terminal response. -/
structure UserResponseModel where
  doc_model : Option DocstringPresentationModel
  response : UserResponse
deriving DecidableEq, Repr

/-- The `while docstring_models: doc = docstring_models.pop()` loop of
`get_approved_docstrings`, processing the edits from the end of the list;
`k` counts the prompts already made in this call and `approved_docs`
accumulates accepted edits. -/
def getApprovedAux (present : Nat → DocstringPresentationModel → UserResponseModel) :
    Nat → List DocstringPresentationModel → List DocstringPresentationModel →
    Bool × Option (List DocstringPresentationModel)
  | _, [], approved_docs => (true, some approved_docs)
  | k, doc :: rest, approved_docs =>
    match (present k doc).response with
    | UserResponse.quit => (false, none)
    | UserResponse.skip => getApprovedAux present (k + 1) rest approved_docs
    | UserResponse.accept =>
      getApprovedAux present (k + 1) rest
        (approved_docs ++ [((present k doc).doc_model).getD doc])

/-- `DocumentationPipeline.get_approved_docstrings` (pipeline.py 201-221):
returns `(False, None)` as soon as any presented edit is answered QUIT,
discarding all approvals accumulated so far in the call. -/
def get_approved_docstrings
    (present : Nat → DocstringPresentationModel → UserResponseModel)
    (docstring_models : List DocstringPresentationModel) :
    Bool × Option (List DocstringPresentationModel) :=
  getApprovedAux present 0 docstring_models.reverse []

/-- The per-file selection loop of `DocumentationPipeline.run`
(pipeline.py 62-82, with `force_all` unset): each file's docstrings go
through the approval gate; on `should_continue = False` the accumulated
`file_contexts` are cleared and the loop breaks, so nothing is committed. -/
def runCollectAux
    (present : Nat → Nat → DocstringPresentationModel → UserResponseModel) :
    Nat → List (List DocstringPresentationModel) →
    List (List DocstringPresentationModel) →
    List (List DocstringPresentationModel)
  | _, [], file_contexts => file_contexts
  | i, docs :: rest, file_contexts =>
    match get_approved_docstrings (present i) docs with
    | (false, _) => []
    | (true, none) => runCollectAux present (i + 1) rest file_contexts
    | (true, some approved) =>
      if approved.length > 0 then
        runCollectAux present (i + 1) rest (file_contexts ++ [approved])
      else runCollectAux present (i + 1) rest file_contexts

/-- The list of per-file approved batches that reach `write_docstrings`
in `DocumentationPipeline.run`. -/
def runCollect (present : Nat → Nat → DocstringPresentationModel → UserResponseModel)
    (files : List (List DocstringPresentationModel)) :
    List (List DocstringPresentationModel) :=
  runCollectAux present 0 files []

lemma getApprovedAux_quit
    (present : Nat → DocstringPresentationModel → UserResponseModel) :
    ∀ (l acc : List DocstringPresentationModel) (k0 : Nat),
      (∃ k, ∃ hk : k < l.length,
        (present (k0 + k) (l.get ⟨k, hk⟩)).response = UserResponse.quit) →
      getApprovedAux present k0 l acc = (false, none) := by
  intro l
  induction l with
  | nil =>
    intro acc k0 h
    obtain ⟨k, hk, _⟩ := h
    exact absurd hk (by simp)
  | cons d rest ih =>
    intro acc k0 h
    cases hresp : (present k0 d).response with
    | quit => simp only [getApprovedAux, hresp]
    | skip =>
      simp only [getApprovedAux, hresp]
      obtain ⟨k, hk, hq⟩ := h
      match k with
      | 0 => rw [show k0 + 0 = k0 by rfl] at hq; simp at hq; exact absurd hq.symm (by simp [hresp])
      | Nat.succ j =>
        apply ih
        refine ⟨j, by simpa using hk, ?_⟩
        have : k0 + (j + 1) = (k0 + 1) + j := by omega
        rw [this] at hq
        simpa using hq
    | accept =>
      simp only [getApprovedAux, hresp]
      obtain ⟨k, hk, hq⟩ := h
      match k with
      | 0 => rw [show k0 + 0 = k0 by rfl] at hq; simp at hq; exact absurd hq.symm (by simp [hresp])
      | Nat.succ j =>
        apply ih
        refine ⟨j, by simpa using hk, ?_⟩
        have : k0 + (j + 1) = (k0 + 1) + j := by omega
        rw [this] at hq
        simpa using hq

lemma runCollectAux_quit
    (present : Nat → Nat → DocstringPresentationModel → UserResponseModel) :
    ∀ (fs : List (List DocstringPresentationModel))
      (acc : List (List DocstringPresentationModel)) (i0 : Nat),
      (∃ i, ∃ hi : i < fs.length,
        get_approved_docstrings (present (i0 + i)) (fs.get ⟨i, hi⟩) = (false, none)) →
      runCollectAux present i0 fs acc = [] := by
  intro fs
  induction fs with
  | nil =>
    intro acc i0 h
    obtain ⟨i, hi, _⟩ := h
    exact absurd hi (by simp)
  | cons f rest ih =>
    intro acc i0 h
    cases hg : get_approved_docstrings (present i0) f with
    | mk b o =>
      cases b with
      | false => simp only [runCollectAux, hg]
      | true =>
        obtain ⟨i, hi, hq⟩ := h
        have hnext : ∃ i, ∃ hi : i < rest.length,
            get_approved_docstrings (present ((i0 + 1) + i)) (rest.get ⟨i, hi⟩) =
              (false, none) := by
          match i with
          | 0 =>
            rw [show i0 + 0 = i0 by rfl] at hq
            simp only [List.get] at hq
            rw [hg] at hq
            exact absurd hq (by simp)
          | Nat.succ j =>
            refine ⟨j, by simpa using hi, ?_⟩
            have : i0 + (j + 1) = (i0 + 1) + j := by omega
            rw [this] at hq
            simpa using hq
        cases o with
        | none => simp only [runCollectAux, hg]; exact ih _ _ hnext
        | some approved =>
          simp only [runCollectAux, hg]
          by_cases hlen : approved.length > 0
          · rw [if_pos hlen]; exact ih _ _ hnext
          · rw [if_neg hlen]; exact ih _ _ hnext

/-- C5: if the user's response to any presented edit of a file's batch is
QUIT, the approval gate returns `continue = False` with no approved edits
(everything accumulated in that call is discarded), and the caller's
selection loop commits none of the edits of that batch (it clears all
pending file contexts and breaks). -/
theorem approval_quit_discards_all
    (present : Nat → Nat → DocstringPresentationModel → UserResponseModel)
    (files : List (List DocstringPresentationModel)) (i : Nat)
    (hi : i < files.length)
    (hq : ∃ k, ∃ hk : k < (files.get ⟨i, hi⟩).reverse.length,
      (present i k ((files.get ⟨i, hi⟩).reverse.get ⟨k, hk⟩)).response =
        UserResponse.quit) :
    get_approved_docstrings (present i) (files.get ⟨i, hi⟩) = (false, none) ∧
    runCollect present files = [] := by
  have hgate : get_approved_docstrings (present i) (files.get ⟨i, hi⟩) = (false, none) := by
    rw [get_approved_docstrings]
    apply getApprovedAux_quit
    obtain ⟨k, hk, h⟩ := hq
    exact ⟨k, hk, by simpa using h⟩
  refine ⟨hgate, ?_⟩
  rw [runCollect]
  apply runCollectAux_quit
  exact ⟨i, hi, by simpa using hgate⟩

theorem approval_quit_discards_all_witness :
    (∃ k, ∃ hk : k <
        (([[⟨"m.a", "a", ⟨["x\n"], 0⟩, 0, "f", none, DocstringLocation.below⟩,
            ⟨"m.b", "b", ⟨["y\n"], 3⟩, 0, "f", none, DocstringLocation.below⟩,
            ⟨"m.c", "c", ⟨["z\n"], 6⟩, 0, "f", none, DocstringLocation.below⟩]] :
          List (List DocstringPresentationModel)).get ⟨0, by decide⟩).reverse.length,
      ((fun _ k d => if k = 1 then (⟨none, UserResponse.quit⟩ : UserResponseModel)
          else ⟨some d, UserResponse.accept⟩ :
          Nat → Nat → DocstringPresentationModel → UserResponseModel) 0 k
        ((([[⟨"m.a", "a", ⟨["x\n"], 0⟩, 0, "f", none, DocstringLocation.below⟩,
            ⟨"m.b", "b", ⟨["y\n"], 3⟩, 0, "f", none, DocstringLocation.below⟩,
            ⟨"m.c", "c", ⟨["z\n"], 6⟩, 0, "f", none, DocstringLocation.below⟩]] :
          List (List DocstringPresentationModel)).get ⟨0, by decide⟩).reverse.get
            ⟨k, hk⟩)).response = UserResponse.quit) ∧
    (get_approved_docstrings
      ((fun _ k d => if k = 1 then (⟨none, UserResponse.quit⟩ : UserResponseModel)
          else ⟨some d, UserResponse.accept⟩ :
          Nat → Nat → DocstringPresentationModel → UserResponseModel) 0)
      (([[⟨"m.a", "a", ⟨["x\n"], 0⟩, 0, "f", none, DocstringLocation.below⟩,
          ⟨"m.b", "b", ⟨["y\n"], 3⟩, 0, "f", none, DocstringLocation.below⟩,
          ⟨"m.c", "c", ⟨["z\n"], 6⟩, 0, "f", none, DocstringLocation.below⟩]] :
        List (List DocstringPresentationModel)).get ⟨0, by decide⟩) = (false, none) ∧
    runCollect
      (fun _ k d => if k = 1 then (⟨none, UserResponse.quit⟩ : UserResponseModel)
        else ⟨some d, UserResponse.accept⟩)
      [[⟨"m.a", "a", ⟨["x\n"], 0⟩, 0, "f", none, DocstringLocation.below⟩,
        ⟨"m.b", "b", ⟨["y\n"], 3⟩, 0, "f", none, DocstringLocation.below⟩,
        ⟨"m.c", "c", ⟨["z\n"], 6⟩, 0, "f", none, DocstringLocation.below⟩]] = []) :=
  ⟨⟨1, by decide, by decide⟩,
    approval_quit_discards_all
      (fun _ k d => if k = 1 then (⟨none, UserResponse.quit⟩ : UserResponseModel)
        else ⟨some d, UserResponse.accept⟩)
      [[⟨"m.a", "a", ⟨["x\n"], 0⟩, 0, "f", none, DocstringLocation.below⟩,
        ⟨"m.b", "b", ⟨["y\n"], 3⟩, 0, "f", none, DocstringLocation.below⟩,
        ⟨"m.c", "c", ⟨["z\n"], 6⟩, 0, "f", none, DocstringLocation.below⟩]]
      0 (by decide) ⟨1, by decide, by decide⟩⟩

/-! ### Qualified names (`PythonParser.get_qualified_name`,
python_parser.py 113-140, and `extract_function_context`, 164-193)

The tree-sitter parent chain of a function node is modelled as the list of
its ancestors from the immediate parent upward; of each ancestor only its
node type and the text of its `name` field (empty when absent) are
relevant to the qualified-name computation. -/

/-- An ancestor node in the tree-sitter parse tree: its node type (for
example `"class_definition"`, `"function_definition"`, `"block"`,
`"module"`) and the text of its `name` field. -/
structure TSAncestor where
  type : String
  name : String
deriving DecidableEq, Repr

/-- The `while parent is not None` walk of `get_qualified_name`: prepend
the name of every `class_definition` ancestor, stop at the first `module`
ancestor, skip everything else (function_definition ancestors included). -/
def get_qualified_name (qualified_name : String) : List TSAncestor → String
  | [] => qualified_name
  | parent :: rest =>
    if parent.type = "class_definition" then
      get_qualified_name
        (if qualified_name ≠ "" then parent.name ++ "." ++ qualified_name
         else parent.name) rest
    else if parent.type = "module" then qualified_name
    else get_qualified_name qualified_name rest

/-- The qualified name assembled by `extract_function_context`:
`f"{module_name}.{qualified_name}"`. -/
def extract_qualified_name (module_name func_name : String)
    (ancestors : List TSAncestor) : String :=
  module_name ++ "." ++ get_qualified_name func_name ancestors

/-- Join a non-empty list of name components with dots. -/
def joinDots : List String → String
  | [] => ""
  | [x] => x
  | x :: xs => x ++ "." ++ joinDots xs

/-- Spec-side scope path per the claim: the names of *all* lexically
enclosing named scopes (classes and functions alike) below the first
enclosing module, innermost first. -/
def lexicalScopeNames : List TSAncestor → List String
  | [] => []
  | a :: rest =>
    if a.type = "module" then []
    else if a.type = "class_definition" ∨ a.type = "function_definition" then
      a.name :: lexicalScopeNames rest
    else lexicalScopeNames rest

/-- Spec-side qualified name per the claim: module name, then the enclosing
lexical scope names (outermost first), then the function name, joined by
dots. -/
def spec_qualified_name (module_name func_name : String)
    (ancestors : List TSAncestor) : String :=
  joinDots (module_name :: ((lexicalScopeNames ancestors).reverse ++ [func_name]))

/-- The enclosing `class_definition` names only, innermost first, below the
first enclosing module — what the code actually collects. -/
def classScopeNames : List TSAncestor → List String
  | [] => []
  | a :: rest =>
    if a.type = "module" then []
    else if a.type = "class_definition" then a.name :: classScopeNames rest
    else classScopeNames rest

/-- C9 counterexample: for `def inner` nested directly inside
`def outer` in module `m` (parent chain: block, function_definition
`outer`, module), the code produces `m.inner`, while the claim's
composition — scope path from lexical nesting, including enclosing
function names — yields `m.outer.inner`. -/
theorem qualified_name_nested_function_cex :
    extract_qualified_name "m" "inner"
      [⟨"block", ""⟩, ⟨"function_definition", "outer"⟩, ⟨"module", ""⟩] = "m.inner" ∧
    spec_qualified_name "m" "inner"
      [⟨"block", ""⟩, ⟨"function_definition", "outer"⟩, ⟨"module", ""⟩] =
      "m.outer.inner" ∧
    ("m.inner" : String) ≠ "m.outer.inner" := by
  refine ⟨rfl, rfl, by decide⟩

lemma joinDots_cons_of_ne_nil (x : String) (l : List String) (h : l ≠ []) :
    joinDots (x :: l) = x ++ "." ++ joinDots l := by
  match l with
  | [] => exact absurd rfl h
  | y :: ys => rfl

lemma joinDots_append_pair (xs : List String) (a b : String) :
    joinDots (xs ++ [a, b]) = joinDots (xs ++ [a ++ "." ++ b]) := by
  induction xs with
  | nil => rfl
  | cons x rest ih =>
    rw [List.cons_append, List.cons_append,
      joinDots_cons_of_ne_nil x _ (by simp),
      joinDots_cons_of_ne_nil x _ (by simp), ih]

lemma append_dot_ne_empty (x y : String) : x ++ "." ++ y ≠ "" := by
  intro heq
  have hd := congrArg String.data heq
  rw [String.data_append, String.data_append] at hd
  simp at hd

lemma get_qualified_name_eq_classes (ancestors : List TSAncestor) :
    ∀ qn : String, qn ≠ "" →
      get_qualified_name qn ancestors =
        joinDots ((classScopeNames ancestors).reverse ++ [qn]) := by
  induction ancestors with
  | nil => intro qn _; rfl
  | cons a rest ih =>
    intro qn hqn
    by_cases hcls : a.type = "class_definition"
    · rw [get_qualified_name, if_pos hcls, if_pos hqn,
        ih (a.name ++ "." ++ qn) (append_dot_ne_empty a.name qn)]
      have hmod : ¬a.type = "module" := by rw [hcls]; decide
      rw [classScopeNames, if_neg hmod, if_pos hcls]
      rw [List.reverse_cons, List.append_assoc]
      exact (joinDots_append_pair (classScopeNames rest).reverse a.name qn).symm
    · by_cases hmod : a.type = "module"
      · rw [get_qualified_name, if_neg hcls, if_pos hmod,
          classScopeNames, if_pos hmod]
        rfl
      · rw [get_qualified_name, if_neg hcls, if_neg hmod, ih qn hqn,
          classScopeNames, if_neg hmod, if_neg hcls]

/-- C9 (amended): for a non-empty function name, the qualified name is the
module name, then the names of the enclosing `class_definition` scopes
*only* (outermost first, up to the first enclosing module), then the
function name, joined by dots; enclosing function names are *not* part of
the scope path (a function nested in a function gets
`module.function_name` unless classes enclose it). -/
theorem qualified_name_classes_only (module_name func_name : String)
    (ancestors : List TSAncestor) (h : func_name ≠ "") :
    extract_qualified_name module_name func_name ancestors =
      joinDots (module_name :: ((classScopeNames ancestors).reverse ++ [func_name])) := by
  rw [extract_qualified_name, get_qualified_name_eq_classes ancestors func_name h,
    joinDots_cons_of_ne_nil module_name _ (by simp)]

theorem qualified_name_classes_only_witness :
    (("inner" : String) ≠ "") ∧
    extract_qualified_name "m" "inner"
      [⟨"block", ""⟩, ⟨"function_definition", "outer"⟩,
        ⟨"class_definition", "C"⟩, ⟨"module", ""⟩] =
      joinDots ("m" :: ((classScopeNames
        [⟨"block", ""⟩, ⟨"function_definition", "outer"⟩,
          ⟨"class_definition", "C"⟩, ⟨"module", ""⟩]).reverse ++ ["inner"])) :=
  ⟨by decide,
    qualified_name_classes_only "m" "inner"
      [⟨"block", ""⟩, ⟨"function_definition", "outer"⟩,
        ⟨"class_definition", "C"⟩, ⟨"module", ""⟩] (by decide)⟩

/-! ### Locator ordering (`ParserBase.parse`, parser_base.py 91-125)

`filter_functions` returns the matched function nodes in the grammar
query's order (a pre-order traversal: a function before its lexically
nested functions, siblings in source order — as the repository's own
`test_filter_nested_functions` demonstrates). `parse` then pours this
ordered list into a Python `set` (`function_nodes = set();
function_nodes.update(nodes)`) and builds the contexts by iterating that
set. CPython set iteration order is unspecified (it depends on the
elements' hash values), so the set is modelled by an arbitrary iteration
function `setIter` constrained only to produce the deduplicated elements
in *some* order. Node and context types are abstract parameters, as is the
language-specific `extract_function_context`. -/

/-- `ParserBase.parse` from the point where the filtered match list is
available: dump the matches into a set, then extract a context from each
element in set-iteration order. -/
def ParserBase.parse {Node Ctx : Type} (extract : Node → String → Ctx)
    (setIter : List Node → List Node) (module_name : String)
    (nodes : List Node) : List Ctx :=
  (setIter nodes).map (fun node => extract node module_name)

/-- C8 counterexample: it is *not* true that for every admissible set
iteration order, `parse` emits the contexts in the source (pre-)order of
the filtered match list — an admissible order that reverses the
deduplicated matches makes two sibling functions come out in reverse
source order. -/
theorem parse_order_cex :
    ¬ (∀ setIter : List Nat → List Nat,
        (∀ l : List Nat, (setIter l).Perm l.dedup) →
        ∀ (module_name : String) (nodes : List Nat), nodes.Nodup →
          ParserBase.parse (fun n _ => n) setIter module_name nodes = nodes) := by
  intro h
  have hadm : ∀ l : List Nat, (l.dedup.reverse).Perm l.dedup :=
    fun l => l.dedup.reverse_perm
  have hcontra := h (fun l => l.dedup.reverse) hadm "m" [0, 1] (by decide)
  exact absurd hcontra (by decide)

/-- C8 (amended): `parse` returns the contexts of the matched function
nodes after set-deduplication, in an order that is some permutation of the
deduplicated (source-ordered) match list; membership is guaranteed but no
emission order is, because the ordered matches pass through an unordered
`set` before extraction. -/
theorem parse_perm_dedup {Node Ctx : Type} [DecidableEq Node]
    (extract : Node → String → Ctx) (setIter : List Node → List Node)
    (hadm : ∀ l : List Node, (setIter l).Perm l.dedup) (module_name : String)
    (nodes : List Node) :
    (ParserBase.parse extract setIter module_name nodes).Perm
      (nodes.dedup.map (fun node => extract node module_name)) :=
  (hadm nodes).map (fun node => extract node module_name)

theorem parse_perm_dedup_witness :
    (∀ l : List Nat, (l.dedup : List Nat).Perm l.dedup) ∧
    (ParserBase.parse (fun n m => m ++ toString n) (fun l => l.dedup) "m"
        [0, 1, 1]).Perm
      (([0, 1, 1] : List Nat).dedup.map (fun n => "m" ++ toString n)) :=
  ⟨fun _ => List.Perm.refl _,
    parse_perm_dedup (fun n m => m ++ toString n) (fun l => l.dedup)
      (fun _ => List.Perm.refl _) "m" [0, 1, 1]⟩

/-! ### In-range characterizations of the slice primitives -/

lemma pyNormIdx_of_range (i : Int) (n : Nat) (h0 : 0 ≤ i) (h1 : i ≤ (n : Int)) :
    pyNormIdx i n = i.toNat := by
  rw [pyNormIdx, if_neg (by omega)]
  omega

lemma pyInsertSlice_of_range (l : List α) (i : Int) (xs : List α)
    (h0 : 0 ≤ i) (h1 : i ≤ (l.length : Int)) :
    pyInsertSlice l i xs = l.take i.toNat ++ xs ++ l.drop i.toNat := by
  rw [pyInsertSlice, pyNormIdx_of_range i l.length h0 h1]

lemma pyDelSlice_of_range (l : List α) (a b : Int)
    (h0 : 0 ≤ a) (hab : a ≤ b) (hb : b ≤ (l.length : Int)) :
    pyDelSlice l a b = l.take a.toNat ++ l.drop b.toNat := by
  rw [pyDelSlice, pyNormIdx_of_range a l.length h0 (le_trans hab hb),
    pyNormIdx_of_range b l.length (le_trans h0 hab) hb]
  have hmax : max a.toNat b.toNat = b.toNat := by omega
  rw [hmax]

lemma sublist_pyInsertSlice (l : List α) (i : Int) (xs : List α) :
    l.Sublist (pyInsertSlice l i xs) := by
  rw [pyInsertSlice]
  conv_lhs => rw [← List.take_append_drop (pyNormIdx i l.length) l]
  rw [List.append_assoc]
  exact List.Sublist.append_left (List.sublist_append_right xs _) _

/-- Unfolding of one sweep step for an edit with no existing docstring. -/
lemma applyEdit_of_none (buf : List String) (o : Int)
    (d : DocstringPresentationModel) (hnone : d.existing_docstring = none) :
    applyEdit (buf, o) d =
      (pyInsertSlice buf
        (if d.docstring_location = DocstringLocation.above then
          max 0 (d.new_docstring.start_line + o)
        else d.new_docstring.start_line + o) (indentedDocumentation d),
       o + (d.new_docstring.lines.length : Int)) := by
  rw [applyEdit]
  simp only [hnone]
  norm_num

/-- In-range unfolding of one sweep step for an edit with no existing
docstring: the block is spliced in exactly at `start_line + offset`. -/
lemma applyEdit_of_none_range (buf : List String) (o : Int)
    (d : DocstringPresentationModel) (hnone : d.existing_docstring = none)
    (h0 : 0 ≤ docSortKey d + o) (h1 : docSortKey d + o ≤ (buf.length : Int)) :
    applyEdit (buf, o) d =
      (buf.take (docSortKey d + o).toNat ++ indentedDocumentation d ++
        buf.drop (docSortKey d + o).toNat,
       o + (d.new_docstring.lines.length : Int)) := by
  rw [applyEdit_of_none buf o d hnone]
  have hsame : (if d.docstring_location = DocstringLocation.above then
      max 0 (d.new_docstring.start_line + o)
    else d.new_docstring.start_line + o) = docSortKey d + o := by
    have hkey : d.new_docstring.start_line = docSortKey d := rfl
    rw [hkey]
    split
    · omega
    · rfl
  rw [hsame, pyInsertSlice_of_range buf _ _ h0 h1]

lemma length_indentedDocumentation (d : DocstringPresentationModel) :
    (indentedDocumentation d).length = d.new_docstring.lines.length := by
  rw [indentedDocumentation, List.length_map]

/-- Total length of the new-docstring blocks of a list of edits. -/
def sumNewLines (docs : List DocstringPresentationModel) : Nat :=
  (docs.map (fun d => d.new_docstring.lines.length)).sum

/-- Prefix preservation: a sweep whose every edit (with no existing
docstring) lands at or after line `m` of the current buffer leaves the
first `m` lines untouched. -/
lemma sweep_take_prefix :
    ∀ (es : List DocstringPresentationModel) (buf : List String) (o : Int) (m : Nat),
      (∀ d ∈ es, d.existing_docstring = none) →
      (∀ d ∈ es, (m : Int) ≤ docSortKey d + o) →
      (∀ d ∈ es, docSortKey d + o ≤ (buf.length : Int)) →
      ((es.foldl applyEdit (buf, o)).1).take m = buf.take m := by
  intro es
  induction es with
  | nil => intro buf o m _ _ _; rfl
  | cons e rest ih =>
    intro buf o m hnone hlo hhi
    have he0 : (m : Int) ≤ docSortKey e + o := hlo e (by simp)
    have he1 : docSortKey e + o ≤ (buf.length : Int) := hhi e (by simp)
    rw [List.foldl_cons,
      applyEdit_of_none_range buf o e (hnone e (by simp)) (by omega) he1]
    set a := (docSortKey e + o).toNat with ha
    set buf2 := buf.take a ++ indentedDocumentation e ++ buf.drop a with hbuf2
    have hlen2 : (buf2.length : Int) =
        (buf.length : Int) + e.new_docstring.lines.length := by
      rw [hbuf2]
      simp only [List.length_append, List.length_take, List.length_drop,
        length_indentedDocumentation]
      push_cast
      omega
    have htail := ih buf2 (o + (e.new_docstring.lines.length : Int)) m
      (fun d hd => hnone d (by simp [hd]))
      (fun d hd => by
        have := hlo d (by simp [hd])
        omega)
      (fun d hd => by
        have := hhi d (by simp [hd])
        omega)
    rw [htail, hbuf2]
    have hma : m ≤ a := by omega
    have haL : a ≤ buf.length := by omega
    rw [List.take_append_of_le_length
        (by simp [List.length_append, List.length_take]; omega),
      List.take_append_of_le_length (by simp [List.length_take]; omega),
      List.take_take]
    congr 1
    omega

/-- The heart of C1: after the sweep (edits sorted ascending, none
removing an existing docstring, all in range), the `i`-th edit's indented
block sits in the final buffer exactly at
`start_line_i + offset + sum of the lengths of the earlier blocks`. -/
lemma sweep_block_position :
    ∀ (es : List DocstringPresentationModel) (buf : List String) (o : Int),
      (∀ d ∈ es, d.existing_docstring = none) →
      (∀ d ∈ es, 0 ≤ docSortKey d + o) →
      (∀ d ∈ es, docSortKey d + o ≤ (buf.length : Int)) →
      List.Sorted docSortLe es →
      ∀ (i : Nat) (hi : i < es.length),
        (((es.foldl applyEdit (buf, o)).1).drop
            ((docSortKey (es.get ⟨i, hi⟩) + o).toNat + sumNewLines (es.take i))).take
          (es.get ⟨i, hi⟩).new_docstring.lines.length =
        indentedDocumentation (es.get ⟨i, hi⟩) := by
  intro es
  induction es with
  | nil => intro buf o _ _ _ _ i hi; exact absurd hi (by simp)
  | cons e rest ih =>
    intro buf o hnone hlo hhi hsorted i hi
    have he0 : 0 ≤ docSortKey e + o := hlo e (by simp)
    have he1 : docSortKey e + o ≤ (buf.length : Int) := hhi e (by simp)
    obtain ⟨hle, hsorted2⟩ := List.sorted_cons.mp hsorted
    rw [List.foldl_cons,
      applyEdit_of_none_range buf o e (hnone e (by simp)) he0 he1]
    set a := (docSortKey e + o).toNat with ha
    set lenE := e.new_docstring.lines.length with hlenE
    set buf2 := buf.take a ++ indentedDocumentation e ++ buf.drop a with hbuf2
    set o2 := o + (lenE : Int) with ho2
    have haL : a ≤ buf.length := by omega
    have hlen2 : (buf2.length : Int) = (buf.length : Int) + lenE := by
      rw [hbuf2]
      simp only [List.length_append, List.length_take, List.length_drop,
        length_indentedDocumentation, ← hlenE]
      push_cast
      omega
    cases i with
    | zero =>
      have hget : (e :: rest).get ⟨0, hi⟩ = e := rfl
      rw [hget]
      have hpre := sweep_take_prefix rest buf2 o2 (a + lenE)
        (fun d hd => hnone d (by simp [hd]))
        (fun d hd => by
          have hlek := hle d hd
          rw [docSortLe] at hlek
          have := hlo d (by simp [hd])
          push_cast
          omega)
        (fun d hd => by
          have := hhi d (by simp [hd])
          omega)
      have hres : List.drop a (List.take (a + lenE)
          ((rest.foldl applyEdit (buf2, o2)).1)) =
          List.take lenE (List.drop a ((rest.foldl applyEdit (buf2, o2)).1)) := by
        rw [List.drop_take]
        congr 1
        omega
      have htakeA : (buf.take a).length = a := by
        rw [List.length_take]
        omega
      have htakeAB : (buf.take a ++ indentedDocumentation e).length = a + lenE := by
        rw [List.length_append, htakeA, length_indentedDocumentation]
      have hbufAB : List.take (a + lenE) buf2 =
          buf.take a ++ indentedDocumentation e := by
        rw [hbuf2]
        exact List.take_left' htakeAB
      have hdropA : List.drop a (buf.take a ++ indentedDocumentation e) =
          indentedDocumentation e := List.drop_left' htakeA
      simp only [List.take_zero, sumNewLines, List.map_nil, List.sum_nil,
        Nat.add_zero]
      rw [← hres, hpre, hbufAB, hdropA]
    | succ j =>
      have hj : j < rest.length := by simpa using hi
      have hget : (e :: rest).get ⟨j + 1, hi⟩ = rest.get ⟨j, hj⟩ := rfl
      rw [hget]
      have htake : (e :: rest).take (j + 1) = e :: rest.take j := rfl
      have hsum : sumNewLines ((e :: rest).take (j + 1)) =
          lenE + sumNewLines (rest.take j) := by
        rw [htake, sumNewLines, List.map_cons, List.sum_cons, sumNewLines, hlenE]
      have hidx : (docSortKey (rest.get ⟨j, hj⟩) + o).toNat +
          sumNewLines ((e :: rest).take (j + 1)) =
          (docSortKey (rest.get ⟨j, hj⟩) + o2).toNat + sumNewLines (rest.take j) := by
        rw [hsum]
        have hmem : rest.get ⟨j, hj⟩ ∈ rest := List.get_mem rest j hj
        have := hlo (rest.get ⟨j, hj⟩) (by simp [hmem])
        have hlek := hle (rest.get ⟨j, hj⟩) hmem
        rw [docSortLe] at hlek
        omega
      rw [hidx]
      exact ih buf2 o2
        (fun d hd => hnone d (by simp [hd]))
        (fun d hd => by
          have := hlo d (by simp [hd])
          omega)
        (fun d hd => by
          have := hhi d (by simp [hd])
          omega)
        hsorted2 j hj

/-- Every original buffer line survives a sweep of pure insertions, in its
original relative order. -/
lemma sweep_sublist :
    ∀ (es : List DocstringPresentationModel) (buf : List String) (o : Int),
      (∀ d ∈ es, d.existing_docstring = none) →
      buf.Sublist ((es.foldl applyEdit (buf, o)).1) := by
  intro es
  induction es with
  | nil => intro buf o _; exact List.Sublist.refl buf
  | cons e rest ih =>
    intro buf o hnone
    rw [List.foldl_cons, applyEdit_of_none buf o e (hnone e (by simp))]
    exact List.Sublist.trans (sublist_pyInsertSlice buf _ _)
      (ih _ _ (fun d hd => hnone d (by simp [hd])))

/-- C1 counterexample: without any bound on the edits' start lines the
claimed block position is false — Python's clamping slice insert places an
edit whose `start_line` lies beyond the end of the file at the end of the
buffer, not at `start_line_i + sum(len(lines_j) for j < i)`. Here a single
one-line edit at `start_line = 5` lands at line 0 of an empty file. -/
theorem commit_offset_monotonicity_cex :
    ¬ (∀ (file : List String) (docs : List DocstringPresentationModel),
        (∀ d ∈ docs, d.existing_docstring = none) →
        ∀ (i : Nat) (hi : i < (List.insertionSort docSortLe docs).length),
          ((commitSweep docs file).drop
              ((docSortKey ((List.insertionSort docSortLe docs).get ⟨i, hi⟩)).toNat +
                sumNewLines ((List.insertionSort docSortLe docs).take i))).take
            ((List.insertionSort docSortLe docs).get
              ⟨i, hi⟩).new_docstring.lines.length =
          indentedDocumentation ((List.insertionSort docSortLe docs).get ⟨i, hi⟩)) := by
  intro h
  have hinst := h []
    [⟨"m.f", "s", ⟨["x\n"], 5⟩, 0, "f", none, DocstringLocation.below⟩]
    (by decide) 0 (by decide)
  exact absurd hinst (by decide)

/-- C1 (amended): for every file and every list of edits none of which
carries an existing docstring, **whose start lines all lie within the
original file** (`0 ≤ start_line ≤ file length`), commit applies the edits
sorted ascending by `new_docstring.start_line` with a single running
offset: the `i`-th edit's indented block begins, in the resulting buffer,
at line `start_line_i + sum(len(lines_j) for j < i)` (indices over the
sorted order), and every original line of the file is preserved in its
original relative order. -/
theorem commit_offset_monotonicity (file : List String)
    (docs : List DocstringPresentationModel)
    (hnone : ∀ d ∈ docs, d.existing_docstring = none)
    (hlo : ∀ d ∈ docs, 0 ≤ docSortKey d)
    (hhi : ∀ d ∈ docs, docSortKey d ≤ (file.length : Int)) :
    (∀ (i : Nat) (hi : i < (List.insertionSort docSortLe docs).length),
      ((commitSweep docs file).drop
          ((docSortKey ((List.insertionSort docSortLe docs).get ⟨i, hi⟩)).toNat +
            sumNewLines ((List.insertionSort docSortLe docs).take i))).take
        ((List.insertionSort docSortLe docs).get
          ⟨i, hi⟩).new_docstring.lines.length =
      indentedDocumentation ((List.insertionSort docSortLe docs).get ⟨i, hi⟩)) ∧
    file.Sublist (commitSweep docs file) := by
  have hmem : ∀ d ∈ List.insertionSort docSortLe docs, d ∈ docs :=
    fun d hd => (List.perm_insertionSort docSortLe docs).subset hd
  have hnone2 : ∀ d ∈ List.insertionSort docSortLe docs,
      d.existing_docstring = none := fun d hd => hnone d (hmem d hd)
  constructor
  · intro i hi
    have hpos := sweep_block_position (List.insertionSort docSortLe docs) file 0
      hnone2
      (fun d hd => by have := hlo d (hmem d hd); omega)
      (fun d hd => by have := hhi d (hmem d hd); omega)
      (List.sorted_insertionSort docSortLe docs) i hi
    rw [add_zero] at hpos
    exact hpos
  · exact sweep_sublist (List.insertionSort docSortLe docs) file 0 hnone2

theorem commit_offset_monotonicity_witness :
    ((∀ d ∈ [(⟨"m.g", "s", ⟨["g1\n", "g2\n"], 0⟩, 0, "f", none,
          DocstringLocation.below⟩ : DocstringPresentationModel),
        ⟨"m.f", "s", ⟨["f1\n"], 1⟩, 0, "f", none, DocstringLocation.below⟩],
        d.existing_docstring = none) ∧
      (∀ d ∈ [(⟨"m.g", "s", ⟨["g1\n", "g2\n"], 0⟩, 0, "f", none,
          DocstringLocation.below⟩ : DocstringPresentationModel),
        ⟨"m.f", "s", ⟨["f1\n"], 1⟩, 0, "f", none, DocstringLocation.below⟩],
        0 ≤ docSortKey d) ∧
      (∀ d ∈ [(⟨"m.g", "s", ⟨["g1\n", "g2\n"], 0⟩, 0, "f", none,
          DocstringLocation.below⟩ : DocstringPresentationModel),
        ⟨"m.f", "s", ⟨["f1\n"], 1⟩, 0, "f", none, DocstringLocation.below⟩],
        docSortKey d ≤ ((["a\n", "b\n"] : List String).length : Int))) ∧
    ((∀ (i : Nat) (hi : i < (List.insertionSort docSortLe
        [(⟨"m.g", "s", ⟨["g1\n", "g2\n"], 0⟩, 0, "f", none,
          DocstringLocation.below⟩ : DocstringPresentationModel),
        ⟨"m.f", "s", ⟨["f1\n"], 1⟩, 0, "f", none,
          DocstringLocation.below⟩]).length),
      ((commitSweep
          [(⟨"m.g", "s", ⟨["g1\n", "g2\n"], 0⟩, 0, "f", none,
            DocstringLocation.below⟩ : DocstringPresentationModel),
          ⟨"m.f", "s", ⟨["f1\n"], 1⟩, 0, "f", none, DocstringLocation.below⟩]
          ["a\n", "b\n"]).drop
          ((docSortKey ((List.insertionSort docSortLe
            [(⟨"m.g", "s", ⟨["g1\n", "g2\n"], 0⟩, 0, "f", none,
              DocstringLocation.below⟩ : DocstringPresentationModel),
            ⟨"m.f", "s", ⟨["f1\n"], 1⟩, 0, "f", none,
              DocstringLocation.below⟩]).get ⟨i, hi⟩)).toNat +
            sumNewLines ((List.insertionSort docSortLe
            [(⟨"m.g", "s", ⟨["g1\n", "g2\n"], 0⟩, 0, "f", none,
              DocstringLocation.below⟩ : DocstringPresentationModel),
            ⟨"m.f", "s", ⟨["f1\n"], 1⟩, 0, "f", none,
              DocstringLocation.below⟩]).take i))).take
        ((List.insertionSort docSortLe
          [(⟨"m.g", "s", ⟨["g1\n", "g2\n"], 0⟩, 0, "f", none,
            DocstringLocation.below⟩ : DocstringPresentationModel),
          ⟨"m.f", "s", ⟨["f1\n"], 1⟩, 0, "f", none,
            DocstringLocation.below⟩]).get ⟨i, hi⟩).new_docstring.lines.length =
      indentedDocumentation ((List.insertionSort docSortLe
          [(⟨"m.g", "s", ⟨["g1\n", "g2\n"], 0⟩, 0, "f", none,
            DocstringLocation.below⟩ : DocstringPresentationModel),
          ⟨"m.f", "s", ⟨["f1\n"], 1⟩, 0, "f", none,
            DocstringLocation.below⟩]).get ⟨i, hi⟩)) ∧
    (["a\n", "b\n"] : List String).Sublist (commitSweep
      [(⟨"m.g", "s", ⟨["g1\n", "g2\n"], 0⟩, 0, "f", none,
        DocstringLocation.below⟩ : DocstringPresentationModel),
      ⟨"m.f", "s", ⟨["f1\n"], 1⟩, 0, "f", none, DocstringLocation.below⟩]
      ["a\n", "b\n"])) :=
  ⟨⟨by decide, by decide, by decide⟩,
    commit_offset_monotonicity ["a\n", "b\n"]
      [(⟨"m.g", "s", ⟨["g1\n", "g2\n"], 0⟩, 0, "f", none,
        DocstringLocation.below⟩ : DocstringPresentationModel),
      ⟨"m.f", "s", ⟨["f1\n"], 1⟩, 0, "f", none, DocstringLocation.below⟩]
      (by decide) (by decide) (by decide)⟩

/-- Unfolding of one sweep step for an edit that removes an existing
docstring span. -/
lemma applyEdit_of_some (buf : List String) (o : Int)
    (d : DocstringPresentationModel) (ex : DocstringModel)
    (hex : d.existing_docstring = some ex) :
    applyEdit (buf, o) d =
      (pyInsertSlice
        (pyDelSlice buf (ex.start_line + o) (ex.start_line + o + ex.lines.length))
        (if d.docstring_location = DocstringLocation.above then
          max 0 (d.new_docstring.start_line + o - ex.lines.length)
        else d.new_docstring.start_line + o)
        (indentedDocumentation d),
       o + (d.new_docstring.lines.length : Int) - ex.lines.length) := by
  rw [applyEdit]
  simp only [hex]

/-- C2: a single committed edit with `docstring_location = ABOVE`, whose
existing docstring spans the `R` lines immediately preceding the anchor
(`start_line - R` through `start_line - 1`, all within the file), and
whose new docstring has `M` lines, changes the file's line count by
exactly `M - R`, leaves the lines above `start_line - R` untouched, and
places the inserted block exactly at line
`max(0, start_line - R) = start_line - R` of the original numbering. -/
theorem commit_above_shift (file : List String)
    (d : DocstringPresentationModel) (ex : DocstringModel) (R M : Nat)
    (hloc : d.docstring_location = DocstringLocation.above)
    (hex : d.existing_docstring = some ex)
    (hR : ex.lines.length = R)
    (hM : d.new_docstring.lines.length = M)
    (hstart : ex.start_line = docSortKey d - R)
    (hRle : (R : Int) ≤ docSortKey d)
    (hkey : docSortKey d ≤ (file.length : Int)) :
    ((commitSweep [d] file).length : Int) = (file.length : Int) + M - R ∧
    (commitSweep [d] file).take (docSortKey d - R).toNat =
      file.take (docSortKey d - R).toNat ∧
    ((commitSweep [d] file).drop (docSortKey d - R).toNat).take M =
      indentedDocumentation d := by
  have hkeydef : d.new_docstring.start_line = docSortKey d := rfl
  have hfold : commitSweep [d] file = (applyEdit (file, 0) d).1 := rfl
  have happly := applyEdit_of_some file 0 d ex hex
  rw [hloc, hstart, hR, hM, hkeydef] at happly
  simp only [add_zero, eq_self_iff_true, if_true, sub_add_cancel] at happly
  have hmax : max 0 (docSortKey d - (R : Int)) = docSortKey d - R := by omega
  rw [hmax] at happly
  have hdel : pyDelSlice file (docSortKey d - R) (docSortKey d) =
      file.take (docSortKey d - (R : Int)).toNat ++
        file.drop (docSortKey d).toNat :=
    pyDelSlice_of_range file _ _ (by omega) (by omega) hkey
  rw [hdel] at happly
  have hlenTake : (file.take (docSortKey d - (R : Int)).toNat).length =
      (docSortKey d - (R : Int)).toNat := by
    rw [List.length_take]
    omega
  have hlenMid : ((file.take (docSortKey d - (R : Int)).toNat ++
      file.drop (docSortKey d).toNat).length : Int) =
      (file.length : Int) - R := by
    rw [List.length_append, List.length_drop]
    push_cast [hlenTake]
    omega
  have hins : pyInsertSlice
      (file.take (docSortKey d - (R : Int)).toNat ++
        file.drop (docSortKey d).toNat)
      (docSortKey d - R) (indentedDocumentation d) =
      (file.take (docSortKey d - (R : Int)).toNat ++
        file.drop (docSortKey d).toNat).take (docSortKey d - (R : Int)).toNat ++
      indentedDocumentation d ++
      (file.take (docSortKey d - (R : Int)).toNat ++
        file.drop (docSortKey d).toNat).drop (docSortKey d - (R : Int)).toNat :=
    pyInsertSlice_of_range _ _ _ (by omega) (by omega)
  have htakeMid : (file.take (docSortKey d - (R : Int)).toNat ++
      file.drop (docSortKey d).toNat).take (docSortKey d - (R : Int)).toNat =
      file.take (docSortKey d - (R : Int)).toNat := List.take_left' hlenTake
  have hdropMid : (file.take (docSortKey d - (R : Int)).toNat ++
      file.drop (docSortKey d).toNat).drop (docSortKey d - (R : Int)).toNat =
      file.drop (docSortKey d).toNat := List.drop_left' hlenTake
  rw [hins, htakeMid, hdropMid] at happly
  have hres : commitSweep [d] file =
      file.take (docSortKey d - (R : Int)).toNat ++ indentedDocumentation d ++
        file.drop (docSortKey d).toNat := by
    rw [hfold, happly]
  have hlenInd : (indentedDocumentation d).length = M := by
    rw [length_indentedDocumentation, hM]
  refine ⟨?_, ?_, ?_⟩
  · rw [hres]
    simp only [List.length_append, List.length_drop]
    push_cast [hlenTake, hlenInd]
    omega
  · rw [hres, List.append_assoc]
    exact List.take_left' hlenTake
  · rw [hres, List.append_assoc, List.drop_left' hlenTake]
    exact List.take_left' hlenInd

theorem commit_above_shift_witness :
    ((⟨"m.f", "s", ⟨["n1\n", "n2\n", "n3\n"], 5⟩, 0, "f",
        some ⟨["c1\n", "c2\n"], 3⟩, DocstringLocation.above⟩ :
      DocstringPresentationModel).docstring_location = DocstringLocation.above ∧
      (⟨"m.f", "s", ⟨["n1\n", "n2\n", "n3\n"], 5⟩, 0, "f",
        some ⟨["c1\n", "c2\n"], 3⟩, DocstringLocation.above⟩ :
        DocstringPresentationModel).existing_docstring =
        some ⟨["c1\n", "c2\n"], 3⟩ ∧
      (2 : Int) ≤ docSortKey ⟨"m.f", "s", ⟨["n1\n", "n2\n", "n3\n"], 5⟩, 0, "f",
        some ⟨["c1\n", "c2\n"], 3⟩, DocstringLocation.above⟩ ∧
      docSortKey ⟨"m.f", "s", ⟨["n1\n", "n2\n", "n3\n"], 5⟩, 0, "f",
        some ⟨["c1\n", "c2\n"], 3⟩, DocstringLocation.above⟩ ≤
        ((["l0\n", "l1\n", "l2\n", "c1\n", "c2\n", "l5\n", "l6\n"] :
          List String).length : Int)) ∧
    (((commitSweep [⟨"m.f", "s", ⟨["n1\n", "n2\n", "n3\n"], 5⟩, 0, "f",
        some ⟨["c1\n", "c2\n"], 3⟩, DocstringLocation.above⟩]
        ["l0\n", "l1\n", "l2\n", "c1\n", "c2\n", "l5\n", "l6\n"]).length : Int) =
      ((["l0\n", "l1\n", "l2\n", "c1\n", "c2\n", "l5\n", "l6\n"] :
        List String).length : Int) + 3 - 2 ∧
    (commitSweep [⟨"m.f", "s", ⟨["n1\n", "n2\n", "n3\n"], 5⟩, 0, "f",
        some ⟨["c1\n", "c2\n"], 3⟩, DocstringLocation.above⟩]
        ["l0\n", "l1\n", "l2\n", "c1\n", "c2\n", "l5\n", "l6\n"]).take
        ((docSortKey ⟨"m.f", "s", ⟨["n1\n", "n2\n", "n3\n"], 5⟩, 0, "f",
          some ⟨["c1\n", "c2\n"], 3⟩, DocstringLocation.above⟩ - (2 : Nat)).toNat) =
      (["l0\n", "l1\n", "l2\n", "c1\n", "c2\n", "l5\n", "l6\n"] :
        List String).take
        ((docSortKey ⟨"m.f", "s", ⟨["n1\n", "n2\n", "n3\n"], 5⟩, 0, "f",
          some ⟨["c1\n", "c2\n"], 3⟩, DocstringLocation.above⟩ - (2 : Nat)).toNat) ∧
    ((commitSweep [⟨"m.f", "s", ⟨["n1\n", "n2\n", "n3\n"], 5⟩, 0, "f",
        some ⟨["c1\n", "c2\n"], 3⟩, DocstringLocation.above⟩]
        ["l0\n", "l1\n", "l2\n", "c1\n", "c2\n", "l5\n", "l6\n"]).drop
        ((docSortKey ⟨"m.f", "s", ⟨["n1\n", "n2\n", "n3\n"], 5⟩, 0, "f",
          some ⟨["c1\n", "c2\n"], 3⟩, DocstringLocation.above⟩ -
          (2 : Nat)).toNat)).take 3 =
      indentedDocumentation ⟨"m.f", "s", ⟨["n1\n", "n2\n", "n3\n"], 5⟩, 0, "f",
        some ⟨["c1\n", "c2\n"], 3⟩, DocstringLocation.above⟩) :=
  ⟨⟨rfl, rfl, by decide, by decide⟩,
    commit_above_shift ["l0\n", "l1\n", "l2\n", "c1\n", "c2\n", "l5\n", "l6\n"]
      ⟨"m.f", "s", ⟨["n1\n", "n2\n", "n3\n"], 5⟩, 0, "f",
        some ⟨["c1\n", "c2\n"], 3⟩, DocstringLocation.above⟩
      ⟨["c1\n", "c2\n"], 3⟩ 2 3 rfl rfl rfl rfl (by decide) (by decide) (by decide)⟩
